import Mathlib

/-!
Verification of the opencode-worktrees repository: a shallow embedding of its
branch validation, path safety, file sync, SQLite state store, multi-repo
worktree-set orchestration and terminal-escaping code, with theorems settling
the specification claims.

Strings are modelled as lists of UTF-16 code points (`Str := List Char`),
matching JavaScript string semantics for the basic-multilingual-plane inputs
these functions handle; all string operations are defined by structural
recursion so concrete instances evaluate in the kernel.
-/

namespace Worktrees

/-- JavaScript strings, modelled as lists of characters. -/
abbrev Str := List Char

/-- Coerce a Lean string literal to the model. -/
def str (s : String) : Str := s.data

/-- JS `a.startsWith(b)`. -/
def startsWithL (s pre : Str) : Bool := pre.isPrefixOf s

/-- JS `a.endsWith(b)`. -/
def endsWithL (s suf : Str) : Bool := suf.reverse.isPrefixOf s.reverse

/-- JS `s.includes(pat)`: substring containment. -/
def containsSub (s pat : Str) : Bool := s.tails.any (fun t => pat.isPrefixOf t)

-- ===========================================================================
-- Branch validator (src/plugin/worktree/shared/git.ts)
-- ===========================================================================

/-- Control characters rejected by `isValidBranchName`: 0x00-0x1f and 0x7f. -/
def isControlChar (c : Char) : Bool := c.toNat ≤ 0x1f || c.toNat == 0x7f

/-- The character class of the regex `/[~^:?*[\]\\;&|`$()]/` in
`isValidBranchName`: invalid git ref characters and shell metacharacters. -/
def gitShellMetaChars : List Char :=
  ['~', '^', ':', '?', '*', '[', ']', '\\', ';', '&', '|', '\x60', '$', '(', ')']

/-- `isValidBranchName` from git.ts: rejects control characters, then the
invalid-ref/shell-metacharacter class. -/
def isValidBranchName (name : Str) : Bool :=
  if name.any isControlChar then false
  else if name.any (fun c => gitShellMetaChars.contains c) then false
  else true

/-- The character class of the regex `/[\x00-\x1f\x7f ~^:?*[\]\\]/` in the
"invalid characters" refinement of `branchNameSchema`. -/
def invalidBranchChars : List Char :=
  [' ', '~', '^', ':', '?', '*', '[', ']', '\\']

/-- `branchNameSchema` from git.ts, as the first zod issue message produced by
`safeParse` (`none` when the name passes every check).  zod runs the base
string checks (`min`, `max`) first and then the refinements in declaration
order, so the first failing check in this order supplies `issues[0]`. -/
def branchIssue (name : Str) : Option String :=
  if name.length < 1 then some "Branch name cannot be empty"
  else if 255 < name.length then some "Branch name too long"
  else if startsWithL name (str "-") then
    some "Branch name cannot start with '-' (prevents option injection)"
  else if startsWithL name (str "/") || endsWithL name (str "/") then
    some "Branch name cannot start or end with '/'"
  else if containsSub name (str "//") then
    some "Branch name cannot contain '//'"
  else if containsSub name (str "@\x7b") then
    some "Branch name cannot contain '@\x7b' (git reflog syntax)"
  else if containsSub name (str "..") then
    some "Branch name cannot contain '..'"
  else if name.any (fun c => isControlChar c || invalidBranchChars.contains c) then
    some "Branch name contains invalid characters"
  else if !isValidBranchName name then
    some "Contains invalid git ref characters"
  else if startsWithL name (str ".") || endsWithL name (str ".") then
    some "Cannot start or end with dot"
  else if endsWithL name (str ".lock") then
    some "Cannot end with .lock"
  else none

/-- `branchNameSchema.safeParse(name).success`. -/
def branchNameValid (name : Str) : Bool := (branchIssue name).isNone

example : branchNameValid (str "feature/dark-mode") = true := by decide
example : branchNameValid (str "feat dark") = false := by decide
example : branchNameValid (str "-x") = false := by decide
example : branchNameValid (str "a..b") = false := by decide
example : branchNameValid (str "a.lock") = false := by decide
example : branchNameValid (str "") = false := by decide
example : branchNameValid (str "a;b") = false := by decide

-- ===========================================================================
-- Node `path.posix` primitives (used by sync.ts and discovery.ts)
-- ===========================================================================

/-- Node `path.posix.isAbsolute`. -/
def isAbsolutePath (s : Str) : Bool := startsWithL s (str "/")

/-- Split a path on `/` into raw (possibly empty) pieces. -/
def splitSlash : Str → List Str
  | [] => [[]]
  | '/' :: rest => [] :: splitSlash rest
  | c :: rest =>
    match splitSlash rest with
    | [] => [[c]]
    | h :: t => (c :: h) :: t

/-- The non-empty segments of a path. -/
def pathSegs (s : Str) : List Str := (splitSlash s).filter (· ≠ [])

/-- Node `normalizeString` for absolute paths (`allowAboveRoot = false`):
`.` is dropped and `..` pops the last segment, disappearing at the root. -/
def normSegsAbs (segs : List Str) : List Str :=
  segs.foldl
    (fun acc seg =>
      if seg = str "." then acc
      else if seg = str ".." then acc.dropLast
      else acc ++ [seg])
    []

/-- Node `normalizeString` for relative paths (`allowAboveRoot = true`):
`..` pops the last segment unless the stack is empty or already ends in
`..`, in which case it is kept. -/
def normSegsRel (segs : List Str) : List Str :=
  segs.foldl
    (fun acc seg =>
      if seg = str "." then acc
      else if seg = str ".." then
        if acc = [] || acc.getLast? = some (str "..") then acc ++ [seg]
        else acc.dropLast
      else acc ++ [seg])
    []

/-- Join segments into an absolute path string. -/
def joinAbs (segs : List Str) : Str :=
  '/' :: (List.intercalate (str "/") segs)

/-- Node `path.posix.normalize`. -/
def posixNormalize (s : Str) : Str :=
  if s = [] then str "."
  else
    let isAbs := isAbsolutePath s
    let trail := endsWithL s (str "/")
    let body := List.intercalate (str "/")
      (if isAbs then normSegsAbs (pathSegs s) else normSegsRel (pathSegs s))
    if isAbs then
      if body = [] then str "/"
      else if trail then '/' :: body ++ ['/'] else '/' :: body
    else
      if body = [] then (if trail then str "./" else str ".")
      else if trail then body ++ ['/'] else body

/-- Node `path.posix.join`: drop empty arguments, concatenate with `/`,
normalize (`.` when everything is empty). -/
def posixJoinList (parts : List Str) : Str :=
  match parts.filter (· ≠ []) with
  | [] => str "."
  | ps => posixNormalize (List.intercalate (str "/") ps)

/-- Node `path.posix.join` with two arguments. -/
def posixJoin (a b : Str) : Str := posixJoinList [a, b]

/-- Node `path.posix.resolve(base, file)`.  Arguments are processed right to
left until an absolute path is assembled; when none is, the process working
directory `cwd` (an ambient absolute path in Node) is prepended.  The result
is the normalized absolute path, without a trailing separator. -/
def posixResolve2 (cwd base file : Str) : Str :=
  if isAbsolutePath file then joinAbs (normSegsAbs (pathSegs file))
  else if isAbsolutePath base then
    joinAbs (normSegsAbs (pathSegs base ++ pathSegs file))
  else joinAbs (normSegsAbs (pathSegs cwd ++ pathSegs base ++ pathSegs file))

/-- Node `path.posix.resolve(p)` with a single argument. -/
def posixResolve1 (cwd p : Str) : Str :=
  if isAbsolutePath p then joinAbs (normSegsAbs (pathSegs p))
  else joinAbs (normSegsAbs (pathSegs cwd ++ pathSegs p))

/-- Node `path.posix.dirname`. -/
def posixDirname (s : Str) : Str :=
  if s = [] then str "."
  else
    let hasRoot := s.head? = some '/'
    let r2 := ((s.drop 1).reverse.dropWhile (· = '/')).dropWhile (· ≠ '/')
    if r2.length = 0 then (if hasRoot then str "/" else str ".")
    else if hasRoot && r2.length = 1 then str "//"
    else s.take r2.length

example : posixResolve2 (str "/cwd") (str "/base") (str "a/b") = str "/base/a/b" := by decide
example : posixResolve2 (str "/cwd") (str "/base/") (str "a/./b") = str "/base/a/b" := by decide
example : posixResolve1 (str "/cwd") (str "x") = str "/cwd/x" := by decide
example : posixDirname (str "/a/b") = str "/a" := by decide
example : posixDirname (str "/a") = str "/" := by decide
example : posixDirname (str "/") = str "/" := by decide
example : posixJoin (str "/w") (str "main") = str "/w/main" := by decide
example : posixJoinList [str "/w", str "main", str "repo"] = str "/w/main/repo" := by decide

-- ===========================================================================
-- Path safety checker (sync.ts `isPathSafe`)
-- ===========================================================================

/-- `isPathSafe` from sync.ts.  `cwd` is the ambient process working
directory consumed by `path.resolve` when `baseDir` is relative; the logger
only emits warnings and is omitted.  `path.sep` is `/` on posix. -/
def isPathSafe (cwd : Str) (filePath baseDir : Str) : Bool :=
  if isAbsolutePath filePath then false
  else if containsSub filePath (str "..") then false
  else
    let resolved := posixResolve2 cwd baseDir filePath
    if !(startsWithL resolved (baseDir ++ str "/")) && resolved ≠ baseDir then false
    else true

example : isPathSafe (str "/cwd") (str "../x") (str "/base") = false := by decide
example : isPathSafe (str "/cwd") (str "/etc/passwd") (str "/base") = false := by decide
example : isPathSafe (str "/cwd") (str "a/b") (str "/base") = true := by decide
example : isPathSafe (str "/cwd") (str "a/b") (str "/base/") = false := by decide

-- ===========================================================================
-- Terminal escaping functions (terminal module)
-- ===========================================================================

/-- JS `s.replace(/c/g, rep)` for a single-character pattern: every
occurrence of `c` is replaced by `rep`. -/
def replaceChar (c : Char) (rep : Str) (s : Str) : Str :=
  s.flatMap (fun x => if x = c then rep else [x])

/-- `escapeBash`: sequentially escape backslash, double quote, dollar,
backtick and exclamation mark, then replace newlines with spaces. -/
def escapeBash (s : Str) : Str :=
  replaceChar '\n' [' ']
    (replaceChar '!' ['\\', '!']
      (replaceChar '\x60' ['\\', '\x60']
        (replaceChar '$' ['\\', '$']
          (replaceChar '"' ['\\', '"']
            (replaceChar '\\' ['\\', '\\'] s)))))

/-- `escapeAppleScript`: escape backslash, double quote and dollar. -/
def escapeAppleScript (s : Str) : Str :=
  replaceChar '$' ['\\', '$']
    (replaceChar '"' ['\\', '"']
      (replaceChar '\\' ['\\', '\\'] s))

/-- `escapeBatch`: double `%` and `^`, prefix `&<>|` with `^`. -/
def escapeBatch (s : Str) : Str :=
  replaceChar '|' ['^', '|']
    (replaceChar '>' ['^', '>']
      (replaceChar '<' ['^', '<']
        (replaceChar '&' ['^', '&']
          (replaceChar '^' ['^', '^']
            (replaceChar '%' ['%', '%'] s)))))

/-- The per-character rule the spec states for the POSIX double-quoted
context. -/
def bashCharRule (c : Char) : Str :=
  if c ∈ ['\\', '"', '$', '\x60', '!'] then ['\\', c]
  else if c = '\n' then [' ']
  else [c]

/-- The per-character rule the spec states for the AppleScript context. -/
def appleCharRule (c : Char) : Str :=
  if c ∈ ['\\', '"', '$'] then ['\\', c] else [c]

/-- The per-character rule the spec states for the Windows batch context. -/
def batchCharRule (c : Char) : Str :=
  if c = '%' then ['%', '%']
  else if c = '^' then ['^', '^']
  else if c ∈ ['&', '<', '>', '|'] then ['^', c]
  else [c]

example : escapeBash (str "a\"b!c\nd") = str "a\\\"b\\!c d" := by decide
example : escapeAppleScript (str "a\"$") = str "a\\\"\\$" := by decide
example : escapeBatch (str "a%^&|") = str "a%%^^^&^|" := by decide

-- ===========================================================================
-- Session state store (state module, bun:sqlite)
-- ===========================================================================

/-- A row of the `sessions` table (`id TEXT PRIMARY KEY, branch, path,
created_at`). -/
structure Session where
  id : String
  branch : String
  path : String
  createdAt : String
deriving DecidableEq, Repr

/-- `sessionSchema.parse` succeeds exactly when every field is non-empty. -/
def sessionParseOk (s : Session) : Bool :=
  s.id ≠ "" && s.branch ≠ "" && s.path ≠ "" && s.createdAt ≠ ""

/-- `addSession`: zod-parse the session (a throw leaves the table unchanged,
modelled by the else branch), then `INSERT OR REPLACE` keyed by `id`, which
deletes any row conflicting on the primary key and inserts the new row. -/
def addSession (s : Session) (tbl : List Session) : List Session :=
  if sessionParseOk s then (tbl.filter (fun r => r.id ≠ s.id)) ++ [s] else tbl

/-- `getSession`. -/
def getSession (tbl : List Session) (sessionId : String) : Option Session :=
  if sessionId = "" then none else tbl.find? (fun r => r.id == sessionId)

/-- A row of the singleton `pending_operations` table
(`id INTEGER PRIMARY KEY CHECK (id = 1), type, branch, path, session_id`). -/
structure PendingRow where
  id : Nat
  type : String
  branch : String
  path : String
  sessionId : Option String
deriving DecidableEq, Repr

/-- Payload of `setPendingSpawn`. -/
structure PendingSpawn where
  branch : String
  path : String
  sessionId : String
deriving DecidableEq, Repr

/-- Payload of `setPendingDelete` / result of `getPendingDelete`. -/
structure PendingDelete where
  branch : String
  path : String
deriving DecidableEq, Repr

/-- Result row of `getPendingSpawn` (`session_id` is a nullable column). -/
structure PendingSpawnResult where
  branch : String
  path : String
  sessionId : Option String
deriving DecidableEq, Repr

/-- `pendingSpawnSchema.parse` succeeds exactly when every field is
non-empty. -/
def pendingSpawnParseOk (p : PendingSpawn) : Bool :=
  p.branch ≠ "" && p.path ≠ "" && p.sessionId ≠ ""

/-- `pendingDeleteSchema.parse` succeeds exactly when every field is
non-empty. -/
def pendingDeleteParseOk (p : PendingDelete) : Bool :=
  p.branch ≠ "" && p.path ≠ ""

/-- `INSERT OR REPLACE` into `pending_operations`: the conflicting row (same
primary key `id`) is deleted and the new row inserted. -/
def insertOrReplacePending (r : PendingRow) (tbl : List PendingRow) : List PendingRow :=
  (tbl.filter (fun q => q.id ≠ r.id)) ++ [r]

/-- `setPendingSpawn`: zod-parse (a throw leaves the table unchanged), then
`INSERT OR REPLACE ... VALUES (1, 'spawn', branch, path, sessionId)`.  The
existing-operation lookups in the source only emit log warnings. -/
def setPendingSpawn (p : PendingSpawn) (tbl : List PendingRow) : List PendingRow :=
  if pendingSpawnParseOk p then
    insertOrReplacePending ⟨1, "spawn", p.branch, p.path, some p.sessionId⟩ tbl
  else tbl

/-- `setPendingDelete`: zod-parse, then
`INSERT OR REPLACE ... VALUES (1, 'delete', branch, path, NULL)`. -/
def setPendingDelete (p : PendingDelete) (tbl : List PendingRow) : List PendingRow :=
  if pendingDeleteParseOk p then
    insertOrReplacePending ⟨1, "delete", p.branch, p.path, none⟩ tbl
  else tbl

/-- `getPendingSpawn`: `SELECT ... WHERE id = 1 AND type = 'spawn'`. -/
def getPendingSpawn (tbl : List PendingRow) : Option PendingSpawnResult :=
  (tbl.find? (fun r => r.id == 1 && r.type == "spawn")).map
    (fun r => ⟨r.branch, r.path, r.sessionId⟩)

/-- `getPendingDelete`: `SELECT ... WHERE id = 1 AND type = 'delete'`. -/
def getPendingDelete (tbl : List PendingRow) : Option PendingDelete :=
  (tbl.find? (fun r => r.id == 1 && r.type == "delete")).map
    (fun r => ⟨r.branch, r.path⟩)

/-- `clearPendingSpawn`: `DELETE FROM pending_operations WHERE id = 1 AND
type = 'spawn'`. -/
def clearPendingSpawn (tbl : List PendingRow) : List PendingRow :=
  tbl.filter (fun r => !(r.id == 1 && r.type == "spawn"))

/-- `clearPendingDelete`: `DELETE FROM pending_operations WHERE id = 1 AND
type = 'delete'`. -/
def clearPendingDelete (tbl : List PendingRow) : List PendingRow :=
  tbl.filter (fun r => !(r.id == 1 && r.type == "delete"))

/-- The schema constraint of `pending_operations` (`id = 1` CHECK plus the
primary key): at most one row, and every row has id 1. -/
def pendingWellFormed (tbl : List PendingRow) : Prop :=
  tbl.length ≤ 1 ∧ ∀ r ∈ tbl, r.id = 1

/-- One call against the pending-operation store. -/
inductive PendingOp
  | setSpawn (p : PendingSpawn)
  | setDelete (p : PendingDelete)
  | clearSpawn
  | clearDelete
deriving DecidableEq, Repr

/-- Apply one store call. -/
def applyPendingOp (op : PendingOp) (tbl : List PendingRow) : List PendingRow :=
  match op with
  | .setSpawn p => setPendingSpawn p tbl
  | .setDelete p => setPendingDelete p tbl
  | .clearSpawn => clearPendingSpawn tbl
  | .clearDelete => clearPendingDelete tbl

/-- Apply a sequence of store calls, first call first. -/
def applyPendingOps (ops : List PendingOp) (tbl : List PendingRow) : List PendingRow :=
  ops.foldl (fun t op => applyPendingOp op t) tbl

example :
    setPendingDelete ⟨"b", "/p2"⟩ (setPendingSpawn ⟨"a", "/p1", "s1"⟩ []) =
      [⟨1, "delete", "b", "/p2", none⟩] := by decide

-- ===========================================================================
-- Multi-repo discovery helpers (multi-repo/discovery.ts)
-- ===========================================================================

/-- `sanitizeBranchForDir`: `branch.replace(/\//g, "-")`. -/
def sanitizeBranchForDir (branch : Str) : Str :=
  branch.map (fun c => if c = '/' then '-' else c)

/-- `getFeaturePath`: `path.join(workspaceRoot, sanitizeBranchForDir(branch))`. -/
def getFeaturePath (workspaceRoot branch : Str) : Str :=
  posixJoin workspaceRoot (sanitizeBranchForDir branch)

-- ===========================================================================
-- Effects and worlds for the filesystem/process-running code
-- ===========================================================================

/-- One externally visible side effect of the orchestration code.  Pure reads
(`readdir`, `stat`, config loads) are answered by the world oracles and do
not appear in the trace. -/
inductive Eff
  | mkdirP (p : Str)
  | gitCmd (args : List Str) (cwd : Str)
  | copyEff (src tgt : Str) (files : List Str)
  | linkEff (src tgt : Str) (dirs : List Str)
  | hooksEff (cwd : Str) (cmds : List Str)
  | termEff (cwd : Str) (cmd : Str) (name : Str)
  | rmrf (p : Str)
  | symlinkEff (src tgt : Str)
deriving DecidableEq, Repr

/-- Whether an effect is a terminal launch. -/
def isTermEff : Eff → Bool
  | .termEff _ _ _ => true
  | _ => false

/-- Whether an effect is a recursive force-delete. -/
def isRmrfEff : Eff → Bool
  | .rmrf _ => true
  | _ => false

/-- Whether an effect is a directory creation. -/
def isMkdirEff : Eff → Bool
  | .mkdirP _ => true
  | _ => false

/-- Whether the directory `p` exists after running a trace, starting from
existence state `init`: `mkdir -p p` creates it, a successful `rm -rf p`
removes it, no other effect touches it. -/
def featureDirAfter (p : Str) (init : Bool) (tr : List Eff) : Bool :=
  tr.foldl
    (fun st e =>
      match e with
      | .mkdirP q => if q = p then true else st
      | .rmrf q => if q = p then false else st
      | _ => st)
    init

/-- Per-repository worktree config (`.opencode/worktree.jsonc`), as returned
by `loadWorktreeConfig` (which never throws: parse failures fall back to
empty defaults). -/
structure WorktreeConfig where
  copyFiles : List Str
  symlinkDirs : List Str
  postCreate : List Str
  preDelete : List Str
deriving DecidableEq, Repr

/-- The environment `createWorktreeSet` runs against. -/
structure SetWorld where
  /-- `readdir(featurePath).catch(() => [])`. -/
  featureEntries : List Str
  /-- `Bun.file(p).exists()` for a candidate `.git` path. -/
  dotGitExists : Str → Bool
  /-- `git(args, cwd)`: ok with trimmed stdout, or err with the message. -/
  gitRun : List Str → Str → Except Str Str
  /-- `loadWorktreeConfig(mainRepoPath, log)`. -/
  loadConfig : Str → WorktreeConfig
  /-- `openTerminal(...)` success flag (a failure is only logged). -/
  terminalOk : Bool

/-- One entry of `SetCreationResult.results`. -/
structure RepoResult where
  repo : Str
  success : Bool
  worktreePath : Option Str
  error : Option Str
deriving DecidableEq, Repr

/-- Aggregate result of `createWorktreeSet`. -/
structure SetCreationResult where
  featurePath : Str
  results : List RepoResult
  successCount : Nat
  failureCount : Nat
deriving DecidableEq, Repr

-- ===========================================================================
-- createWorktreeSet (multi-repo/sets.ts)
-- ===========================================================================

/-- The body of the per-repo loop of `createWorktreeSet` for one repository:
branch-existence probe, `git worktree add` (plain or `-b` from the base),
then config load, file sync and postCreate hooks.  Returns the pushed
result, the increments of the two counters, and the emitted effects.  The
world oracles are total, so the source's per-repo `catch` branch is
unreachable in the model. -/
def createRepoStep (w : SetWorld) (workspaceRoot featurePath branch : Str)
    (baseBranch : Option Str) (runHooksFlag : Bool) (repo : Str) :
    RepoResult × Nat × Nat × List Eff :=
  let mainRepoPath := posixJoinList [workspaceRoot, str "main", repo]
  let worktreePath := posixJoin featurePath repo
  let revArgs := [str "rev-parse", str "--verify", branch]
  let existsB := (w.gitRun revArgs mainRepoPath).toBool
  let addArgs :=
    if existsB then [str "worktree", str "add", worktreePath, branch]
    else [str "worktree", str "add", str "-b", branch, worktreePath,
          baseBranch.getD (str "HEAD")]
  let tr0 := [Eff.gitCmd revArgs mainRepoPath, Eff.gitCmd addArgs mainRepoPath]
  match w.gitRun addArgs mainRepoPath with
  | .error e =>
    (⟨repo, false, none, some e⟩, 0, 1, tr0)
  | .ok _ =>
    let cfg := w.loadConfig mainRepoPath
    let t1 := if cfg.copyFiles ≠ [] then [Eff.copyEff mainRepoPath worktreePath cfg.copyFiles] else []
    let t2 := if cfg.symlinkDirs ≠ [] then [Eff.linkEff mainRepoPath worktreePath cfg.symlinkDirs] else []
    let t3 := if runHooksFlag && cfg.postCreate ≠ [] then [Eff.hooksEff worktreePath cfg.postCreate] else []
    (⟨repo, true, some worktreePath, none⟩, 1, 0, tr0 ++ t1 ++ t2 ++ t3)

/-- The sequential per-repo loop of `createWorktreeSet`: results are pushed
in caller order, the counters accumulate, the traces concatenate. -/
def createRepoLoop (w : SetWorld) (workspaceRoot featurePath branch : Str)
    (baseBranch : Option Str) (runHooksFlag : Bool) :
    List Str → List RepoResult × Nat × Nat × List Eff
  | [] => ([], 0, 0, [])
  | repo :: rest =>
    let (r, si, fi, tr) :=
      createRepoStep w workspaceRoot featurePath branch baseBranch runHooksFlag repo
    let (results, s, f, trace) :=
      createRepoLoop w workspaceRoot featurePath branch baseBranch runHooksFlag rest
    (r :: results, si + s, fi + f, tr ++ trace)

/-- `createWorktreeSet`: validate the branch, abort if the feature directory
already contains worktrees, create the feature directory, run the per-repo
loop, then launch one shared terminal (some repo succeeded) or delete the
feature directory (all failed). -/
def createWorktreeSet (w : SetWorld) (workspaceRoot branch : Str)
    (baseBranch : Option Str) (repos : List Str) (runHooksFlag : Bool) :
    SetCreationResult × List Eff :=
  match branchIssue branch with
  | some errorMsg =>
    ({ featurePath := [],
       results := repos.map (fun repo =>
         ⟨repo, false, none, some (str "Invalid branch name: " ++ str errorMsg)⟩),
       successCount := 0,
       failureCount := repos.length }, [])
  | none =>
    let sanitizedBranch := sanitizeBranchForDir branch
    let featurePath := getFeaturePath workspaceRoot branch
    if w.featureEntries.any
        (fun e => w.dotGitExists (posixJoinList [featurePath, e, str ".git"])) then
      ({ featurePath,
         results := repos.map (fun repo =>
           ⟨repo, false, none, some (str "Feature directory already contains worktrees")⟩),
         successCount := 0,
         failureCount := repos.length }, [])
    else
      let (results, s, f, loopTrace) :=
        createRepoLoop w workspaceRoot featurePath branch baseBranch runHooksFlag repos
      let tail :=
        if 0 < s then [Eff.termEff featurePath (str "opencode") sanitizedBranch]
        else [Eff.rmrf featurePath]
      ({ featurePath, results, successCount := s, failureCount := f },
       Eff.mkdirP featurePath :: loopTrace ++ tail)

-- ===========================================================================
-- removeWorktreeSet (multi-repo/sets.ts)
-- ===========================================================================

/-- The environment `removeWorktreeSet` runs against. -/
structure RemoveWorld where
  /-- `lstat(featurePath)`: `none` = throws, `some b` = succeeds with
  `isDirectory() = b`. -/
  featureStat : Option Bool
  /-- `readdir(featurePath)`. -/
  readdirRes : Except Str (List Str)
  /-- `lstat(gitFile).catch(() => null)`: `some b` = exists with
  `isFile() = b`. -/
  gitFileStat : Str → Option Bool
  /-- `git(args, cwd)`. -/
  gitRun : List Str → Str → Except Str Str
  /-- `loadWorktreeConfig(mainRepoPath, log)`. -/
  loadConfig : Str → WorktreeConfig
  /-- `rm(featurePath, {recursive, force})`: `some e` = throws `e`. -/
  rmErr : Option Str

/-- Aggregate result of `removeWorktreeSet`. -/
structure SetRemovalResult where
  featurePath : Str
  removedCount : Nat
  failureCount : Nat
  errors : List Str
deriving DecidableEq, Repr

/-- `commonDirResult.value.replace(/\/\.git$/, "")`. -/
def stripDotGit (s : Str) : Str :=
  if endsWithL s (str "/.git") then s.take (s.length - 5) else s

/-- Whether an entry of the feature directory is a worktree checkout: its
`.git` entry exists and is a file. -/
def isWorktreeEntry (w : RemoveWorld) (featurePath entry : Str) : Bool :=
  match w.gitFileStat (posixJoin (posixJoin featurePath entry) (str ".git")) with
  | some isFile => isFile
  | none => false

/-- The body of the per-entry loop of `removeWorktreeSet` for one entry:
skip non-worktrees, resolve the owning main repository, run preDelete
hooks, remove the worktree from the main repository.  Returns the
increments of the two counters, the pushed error strings, and the emitted
effects. -/
def removeEntryStep (w : RemoveWorld) (featurePath entry : Str) :
    Nat × Nat × List Str × List Eff :=
  let wtPath := posixJoin featurePath entry
  let gitFile := posixJoin wtPath (str ".git")
  match w.gitFileStat gitFile with
  | none => (0, 0, [], [])
  | some isFile =>
    if !isFile then (0, 0, [], [])
    else
      let args1 := [str "rev-parse", str "--path-format=absolute", str "--git-common-dir"]
      match w.gitRun args1 wtPath with
      | .error e =>
        (0, 1, [str "Failed to resolve main repo for " ++ entry ++ str ": " ++ e],
         [Eff.gitCmd args1 wtPath])
      | .ok out =>
        let mainRepoPath := stripDotGit out
        let cfg := w.loadConfig mainRepoPath
        let hooksTr := if cfg.preDelete ≠ [] then [Eff.hooksEff wtPath cfg.preDelete] else []
        let args2 := [str "worktree", str "remove", str "--force", wtPath]
        match w.gitRun args2 mainRepoPath with
        | .error e =>
          (0, 1, [str "Failed to remove worktree " ++ entry ++ str ": " ++ e],
           Eff.gitCmd args1 wtPath :: hooksTr ++ [Eff.gitCmd args2 mainRepoPath])
        | .ok _ =>
          (1, 0, [], Eff.gitCmd args1 wtPath :: hooksTr ++ [Eff.gitCmd args2 mainRepoPath])

/-- The sequential per-entry loop of `removeWorktreeSet`. -/
def removeEntryLoop (w : RemoveWorld) (featurePath : Str) :
    List Str → Nat × Nat × List Str × List Eff
  | [] => (0, 0, [], [])
  | entry :: rest =>
    let (r1, f1, e1, t1) := removeEntryStep w featurePath entry
    let (r, f, es, t) := removeEntryLoop w featurePath rest
    (r1 + r, f1 + f, e1 ++ es, t1 ++ t)

/-- `removeWorktreeSet`: verify the feature directory, scan it, remove each
worktree entry continuing past failures, then unconditionally force-delete
the feature directory. -/
def removeWorktreeSet (w : RemoveWorld) (workspaceRoot branch : Str) :
    SetRemovalResult × List Eff :=
  let featurePath := getFeaturePath workspaceRoot branch
  match w.featureStat with
  | none =>
    (⟨featurePath, 0, 0, [str "Feature directory not found: " ++ featurePath]⟩, [])
  | some isDir =>
    if !isDir then
      (⟨featurePath, 0, 0,
        [str "Feature path exists but is not a directory: " ++ featurePath]⟩, [])
    else
      match w.readdirRes with
      | .error e =>
        (⟨featurePath, 0, 0, [str "Failed to read feature directory: " ++ e]⟩, [])
      | .ok entries =>
        let (rc, fc, errs, tr) := removeEntryLoop w featurePath entries
        let rmErrs :=
          match w.rmErr with
          | some e => [str "Failed to remove feature directory: " ++ e]
          | none => []
        (⟨featurePath, rc, fc, errs ++ rmErrs⟩, tr ++ [Eff.rmrf featurePath])

-- ===========================================================================
-- symlinkDirs (sync.ts)
-- ===========================================================================

/-- The environment `symlinkDirs` runs against: `stat(sourcePath).catch(() =>
null)` — `some b` = succeeds with `isDirectory() = b`.  `mkdir`, `rm` and
`symlink` are modelled as infallible (the source catches and logs their
errors per entry). -/
structure SyncWorld where
  statDir : Str → Option Bool

/-- One iteration of the `symlinkDirs` loop: path-safety check, source
directory check, ensure the parent, force-remove any existing target, then
symlink the absolute source path to the target. -/
def symlinkEntry (w : SyncWorld) (cwd : Str) (sourceDir targetDir : Str)
    (dir : Str) : List Eff :=
  if !isPathSafe cwd dir sourceDir then []
  else
    let sourcePath := posixJoin sourceDir dir
    let targetPath := posixJoin targetDir dir
    match w.statDir sourcePath with
    | none => []
    | some isDir =>
      if !isDir then []
      else
        [Eff.mkdirP (posixDirname targetPath),
         Eff.rmrf targetPath,
         Eff.symlinkEff sourcePath targetPath]

/-- `symlinkDirs` from sync.ts: run `symlinkEntry` over the configured
entries in order. -/
def symlinkDirs (w : SyncWorld) (cwd : Str) (sourceDir targetDir : Str)
    (dirs : List Str) : List Eff :=
  dirs.flatMap (symlinkEntry w cwd sourceDir targetDir)

-- ===========================================================================
-- findWorkspaceRoot (multi-repo/discovery.ts)
-- ===========================================================================

/-- The `while (currentDir !== "/" && levelsUp < MAX_LEVELS)` loop of
`findWorkspaceRoot`, with `fuel = MAX_LEVELS - levelsUp`.  `fsIsDir p` is
whether `lstat(p)` succeeds with `isDirectory()` (a throw is caught and
treated as false). -/
def findLoop (fsIsDir : Str → Bool) : Str → Nat → Option Str
  | _, 0 => none
  | d, fuel + 1 =>
    if d = str "/" then none
    else if fsIsDir (posixJoin d (str "main")) then some d
    else findLoop fsIsDir (posixDirname d) fuel

/-- `findWorkspaceRoot` from discovery.ts: resolve the start directory and
walk up at most 10 levels looking for a `main/` subdirectory. -/
def findWorkspaceRoot (fsIsDir : Str → Bool) (cwd startDir : Str) : Except Str Str :=
  if startDir = [] then .error (str "startDir must be a non-empty string")
  else
    match findLoop fsIsDir (posixResolve1 cwd startDir) 10 with
    | some d => .ok d
    | none =>
      .error (str "Workspace root not found (no main/ subdirectory within 10 levels from "
        ++ startDir ++ str ")")

/-- The directories the loop inspects: the resolved start directory and its
successive parents, stopping at `/` or after `fuel` steps. -/
def inspectChain (d : Str) : Nat → List Str
  | 0 => []
  | fuel + 1 => if d = str "/" then [] else d :: inspectChain (posixDirname d) fuel

example :
    findWorkspaceRoot (fun p => p = str "/w/main") (str "/") (str "/w/main/repo1") =
      .ok (str "/w") := by rfl
example :
    (findWorkspaceRoot (fun _ => false) (str "/") (str "/a/b")).toBool = false := by rfl

-- ===========================================================================
-- Theorems
-- ===========================================================================

/-- `isValidBranchName` accepts exactly the names free of control characters
and of the invalid-ref/shell-metacharacter class. -/
theorem isValidBranchName_eq_true {name : Str} :
    isValidBranchName name = true ↔
      name.any isControlChar = false ∧
      name.any (fun c => gitShellMetaChars.contains c) = false := by
  unfold isValidBranchName
  split_ifs with ha hb <;> simp_all

set_option maxHeartbeats 2000000 in
/-- A name accepted by `branchNameSchema` passes every individual check. -/
theorem branchValid_checks {name : Str} (h : branchNameValid name = true) :
    1 ≤ name.length ∧ name.length ≤ 255 ∧
    startsWithL name (str "-") = false ∧
    startsWithL name (str "/") = false ∧ endsWithL name (str "/") = false ∧
    containsSub name (str "//") = false ∧
    containsSub name (str "@\x7b") = false ∧
    containsSub name (str "..") = false ∧
    name.any (fun c => isControlChar c || invalidBranchChars.contains c) = false ∧
    name.any isControlChar = false ∧
    name.any (fun c => gitShellMetaChars.contains c) = false ∧
    startsWithL name (str ".") = false ∧ endsWithL name (str ".") = false ∧
    endsWithL name (str ".lock") = false := by
  unfold branchNameValid branchIssue at h
  split_ifs at h with h1 h2 h3 h4 h5 h6 h7 h8 h9 h10 h11 <;> try simp at h
  have h9' : isValidBranchName name = true := by
    cases hb : isValidBranchName name with
    | true => rfl
    | false => exact absurd (by simp [hb]) h9
  obtain ⟨hCtl, hMeta⟩ := isValidBranchName_eq_true.mp h9'
  simp only [Bool.or_eq_true, not_or, Bool.not_eq_true] at h3 h4 h5 h6 h7 h8 h10 h11
  exact ⟨by omega, by omega, h3, h4.1, h4.2, h5, h6, h7, h8, hCtl, hMeta,
    h10.1, h10.2, h11⟩

/-- C2: every string containing one of `~ ^ : ? * [ ] \`, a space, a control
character (0x00-0x1f, 0x7f) or a shell metacharacter `; & | ` $ ( )` fails
`branchNameSchema.safeParse`; the validator also rejects the empty string,
names longer than 255 characters, a leading `-`, a leading or trailing `/`,
`//`, `@{`, `..`, a leading or trailing `.`, and a trailing `.lock`. -/
theorem branchNameSchema_rejections :
    (∀ name : Str, ∀ c ∈ name,
        (c ∈ (['~', '^', ':', '?', '*', '[', ']', '\\', ' ',
               ';', '&', '|', '\x60', '$', '(', ')'] : List Char)
          ∨ c.toNat ≤ 0x1f ∨ c.toNat = 0x7f) →
        branchNameValid name = false)
    ∧ branchNameValid (str "") = false
    ∧ (∀ name : Str, 255 < name.length → branchNameValid name = false)
    ∧ (∀ name : Str, startsWithL name (str "-") = true → branchNameValid name = false)
    ∧ (∀ name : Str, startsWithL name (str "/") = true ∨ endsWithL name (str "/") = true →
        branchNameValid name = false)
    ∧ (∀ name : Str, containsSub name (str "//") = true → branchNameValid name = false)
    ∧ (∀ name : Str, containsSub name (str "@\x7b") = true → branchNameValid name = false)
    ∧ (∀ name : Str, containsSub name (str "..") = true → branchNameValid name = false)
    ∧ (∀ name : Str, startsWithL name (str ".") = true ∨ endsWithL name (str ".") = true →
        branchNameValid name = false)
    ∧ (∀ name : Str, endsWithL name (str ".lock") = true → branchNameValid name = false) := by
  have key : ∀ name : Str, ∀ c ∈ name,
      (c ∈ (['~', '^', ':', '?', '*', '[', ']', '\\', ' ',
             ';', '&', '|', '\x60', '$', '(', ')'] : List Char)
        ∨ c.toNat ≤ 0x1f ∨ c.toNat = 0x7f) →
      branchNameValid name = false := by
    intro name c hc hbad
    cases hval : branchNameValid name with
    | false => rfl
    | true =>
      obtain ⟨-, -, -, -, -, -, -, -, hInv, hCtl, hMeta, -⟩ := branchValid_checks hval
      exfalso
      rcases hbad with hmem | hctl | hdel
      · -- the character is in the listed punctuation set
        have hsub : ∀ x ∈ (['~', '^', ':', '?', '*', '[', ']', '\\', ' ',
              ';', '&', '|', '\x60', '$', '(', ')'] : List Char),
            (isControlChar x || invalidBranchChars.contains x) = true ∨
              gitShellMetaChars.contains x = true := by
          decide
        rcases hsub c hmem with hx | hx
        · have hany : name.any
              (fun c => isControlChar c || invalidBranchChars.contains c) = true :=
            List.any_eq_true.mpr ⟨c, hc, by exact hx⟩
          rw [hany] at hInv
          exact absurd hInv (by decide)
        · have hany : name.any (fun c => gitShellMetaChars.contains c) = true :=
            List.any_eq_true.mpr ⟨c, hc, by exact hx⟩
          rw [hany] at hMeta
          exact absurd hMeta (by decide)
      · have hany : name.any isControlChar = true :=
          List.any_eq_true.mpr ⟨c, hc, by simp only [isControlChar]; simp [hctl]⟩
        rw [hany] at hCtl
        exact absurd hCtl (by decide)
      · have hany : name.any isControlChar = true :=
          List.any_eq_true.mpr ⟨c, hc, by simp only [isControlChar]; simp [hdel]⟩
        rw [hany] at hCtl
        exact absurd hCtl (by decide)
  refine ⟨key, by decide, ?_, ?_, ?_, ?_, ?_, ?_, ?_, ?_⟩ <;>
    · intro name h
      cases hval : branchNameValid name with
      | false => rfl
      | true =>
        obtain ⟨g1, g2, g3, g4, g5, g6, g7, g8, g9, g10, g11, g12, g13, g14⟩ :=
          branchValid_checks hval
        try rcases h with h | h
        all_goals first | omega | simp_all

/-- C3: `isPathSafe` rejects `../x` and `/etc/passwd` against every base
directory; it accepts `a/b` whenever its resolution against the base starts
with the base plus separator; and in general it accepts exactly the paths
that are not absolute, contain no `..`, and whose resolution against the
base passes the base-plus-separator prefix check or equals the base. -/
theorem isPathSafe_spec :
    (∀ cwd base : Str, isPathSafe cwd (str "../x") base = false)
    ∧ (∀ cwd base : Str, isPathSafe cwd (str "/etc/passwd") base = false)
    ∧ (∀ cwd base : Str,
        startsWithL (posixResolve2 cwd base (str "a/b")) (base ++ str "/") = true →
        isPathSafe cwd (str "a/b") base = true)
    ∧ (∀ cwd filePath base : Str,
        isPathSafe cwd filePath base = true ↔
          isAbsolutePath filePath = false ∧
          containsSub filePath (str "..") = false ∧
          (startsWithL (posixResolve2 cwd base filePath) (base ++ str "/") = true ∨
            posixResolve2 cwd base filePath = base)) := by
  have habs : isAbsolutePath (str "a/b") = false := by decide
  have hdot : containsSub (str "a/b") (str "..") = false := by decide
  refine ⟨fun cwd base => rfl, fun cwd base => rfl, ?_, ?_⟩
  · intro cwd base h
    simp [isPathSafe, habs, hdot, h]
  · intro cwd filePath base
    unfold isPathSafe
    split_ifs with h1 h2 h3 <;> simp_all

/-- C3 witness: concrete instantiation of the hypothesis-bearing part. -/
theorem isPathSafe_spec_witness :
    startsWithL (posixResolve2 (str "/c") (str "/base") (str "a/b"))
        ((str "/base") ++ str "/") = true
    ∧ isPathSafe (str "/c") (str "a/b") (str "/base") = true :=
  ⟨by decide, isPathSafe_spec.2.2.1 (str "/c") (str "/base") (by decide)⟩

/-- `replaceChar` distributes over list append. -/
theorem replaceChar_append (c : Char) (rep : Str) (a b : Str) :
    replaceChar c rep (a ++ b) = replaceChar c rep a ++ replaceChar c rep b := by
  simp [replaceChar]

/-- `escapeBash` distributes over list append. -/
theorem escapeBash_append (a b : Str) :
    escapeBash (a ++ b) = escapeBash a ++ escapeBash b := by
  simp [escapeBash, replaceChar_append]

/-- `escapeAppleScript` distributes over list append. -/
theorem escapeAppleScript_append (a b : Str) :
    escapeAppleScript (a ++ b) = escapeAppleScript a ++ escapeAppleScript b := by
  simp [escapeAppleScript, replaceChar_append]

/-- `escapeBatch` distributes over list append. -/
theorem escapeBatch_append (a b : Str) :
    escapeBatch (a ++ b) = escapeBatch a ++ escapeBatch b := by
  simp [escapeBatch, replaceChar_append]

/-- `escapeBash` on a single character is exactly the spec's rule. -/
theorem escapeBash_single (c : Char) : escapeBash [c] = bashCharRule c := by
  by_cases h1 : c = '\\'
  · subst h1; rfl
  by_cases h2 : c = '"'
  · subst h2; rfl
  by_cases h3 : c = '$'
  · subst h3; rfl
  by_cases h4 : c = '\x60'
  · subst h4; rfl
  by_cases h5 : c = '!'
  · subst h5; rfl
  by_cases h6 : c = '\n'
  · subst h6; rfl
  simp [escapeBash, replaceChar, bashCharRule, h1, h2, h3, h4, h5, h6]

/-- `escapeAppleScript` on a single character is exactly the spec's rule. -/
theorem escapeAppleScript_single (c : Char) :
    escapeAppleScript [c] = appleCharRule c := by
  by_cases h1 : c = '\\'
  · subst h1; rfl
  by_cases h2 : c = '"'
  · subst h2; rfl
  by_cases h3 : c = '$'
  · subst h3; rfl
  simp [escapeAppleScript, replaceChar, appleCharRule, h1, h2, h3]

/-- `escapeBatch` on a single character is exactly the spec's rule. -/
theorem escapeBatch_single (c : Char) : escapeBatch [c] = batchCharRule c := by
  by_cases h1 : c = '%'
  · subst h1; rfl
  by_cases h2 : c = '^'
  · subst h2; rfl
  by_cases h3 : c = '&'
  · subst h3; rfl
  by_cases h4 : c = '<'
  · subst h4; rfl
  by_cases h5 : c = '>'
  · subst h5; rfl
  by_cases h6 : c = '|'
  · subst h6; rfl
  simp [escapeBatch, replaceChar, batchCharRule, h1, h2, h3, h4, h5, h6]

/-- C7: each escaping function implements exactly its per-character target
syntax rule — `escapeBash` backslash-escapes `\ " $ \x60 !` and turns
newlines into spaces, `escapeAppleScript` backslash-escapes exactly `\ " $`,
`escapeBatch` doubles `%` and `^` and prefixes `& < > |` with `^` — and the
three functions are pairwise different on the input `!%`. -/
theorem escape_functions_spec :
    (∀ s : Str, escapeBash s = s.flatMap bashCharRule)
    ∧ (∀ s : Str, escapeAppleScript s = s.flatMap appleCharRule)
    ∧ (∀ s : Str, escapeBatch s = s.flatMap batchCharRule)
    ∧ escapeBash (str "!%") ≠ escapeAppleScript (str "!%")
    ∧ escapeBash (str "!%") ≠ escapeBatch (str "!%")
    ∧ escapeAppleScript (str "!%") ≠ escapeBatch (str "!%") := by
  refine ⟨?_, ?_, ?_, by decide, by decide, by decide⟩ <;> intro s <;>
    · induction s with
      | nil => rfl
      | cons c s ih =>
        rw [show (c :: s : Str) = [c] ++ s from rfl]
        rw [List.flatMap_append]
        first
          | rw [escapeBash_append, escapeBash_single,
              show ([c] : Str).flatMap bashCharRule = bashCharRule c by simp, ih]
          | rw [escapeAppleScript_append, escapeAppleScript_single,
              show ([c] : Str).flatMap appleCharRule = appleCharRule c by simp, ih]
          | rw [escapeBatch_append, escapeBatch_single,
              show ([c] : Str).flatMap batchCharRule = batchCharRule c by simp, ih]

/-- C9: `addSession` is an idempotent upsert keyed by session id: after
adding two sessions with the same id, exactly one row with that id is
stored, holding the second session's values, and adding the same session
twice equals adding it once. -/
theorem addSession_upsert_idempotent :
    (∀ (tbl : List Session) (s1 s2 : Session),
        sessionParseOk s1 = true → sessionParseOk s2 = true → s1.id = s2.id →
        (addSession s2 (addSession s1 tbl)).filter (fun r => r.id == s2.id) = [s2])
    ∧ (∀ (tbl : List Session) (s : Session),
        addSession s (addSession s tbl) = addSession s tbl) := by
  have key : ∀ (l : List Session) (i : String),
      ((l.filter fun r => r.id ≠ i).filter fun r => r.id == i) = [] := by
    intro l i
    induction l with
    | nil => rfl
    | cons a t ih => by_cases h : a.id = i <;> simp [h, ih]
  constructor
  · intro tbl s1 s2 h1 h2 hid
    rw [addSession, addSession, if_pos h1, if_pos h2, List.filter_append, key]
    simp
  · intro tbl s
    by_cases hp : sessionParseOk s = true
    · rw [addSession]
      conv_lhs => rw [addSession]
      rw [if_pos hp, if_pos hp]
      conv_rhs => rw [addSession, if_pos hp]
      rw [List.filter_append, List.filter_filter]
      simp
    · simp [addSession, hp]

/-- C9 witness: concrete instantiation. -/
theorem addSession_upsert_idempotent_witness :
    (addSession ⟨"i", "b2", "/p2", "t2"⟩ (addSession ⟨"i", "b1", "/p1", "t1"⟩ [])).filter
        (fun r => r.id == "i") = [⟨"i", "b2", "/p2", "t2"⟩] :=
  addSession_upsert_idempotent.1 [] ⟨"i", "b1", "/p1", "t1"⟩ ⟨"i", "b2", "/p2", "t2"⟩
    (by decide) (by decide) rfl

/-- `INSERT OR REPLACE` on a table whose rows all carry the fixed id 1
replaces the table with the single new row. -/
theorem insertOrReplacePending_of_ids {tbl : List PendingRow}
    (hids : ∀ r ∈ tbl, r.id = 1) (r : PendingRow) (h : r.id = 1) :
    insertOrReplacePending r tbl = [r] := by
  unfold insertOrReplacePending
  have e : tbl.filter (fun q => q.id ≠ r.id) = [] := by
    rw [List.filter_eq_nil_iff]
    intro a ha
    simp [hids a ha, h]
  rw [e]
  rfl

/-- Every single store call preserves the singleton-table constraint. -/
theorem applyPendingOp_wellFormed (op : PendingOp) (tbl : List PendingRow)
    (h : pendingWellFormed tbl) : pendingWellFormed (applyPendingOp op tbl) := by
  obtain ⟨hlen, hids⟩ := h
  cases op with
  | setSpawn p =>
    simp only [applyPendingOp, setPendingSpawn]
    split_ifs with hp
    · rw [insertOrReplacePending_of_ids hids _ rfl]
      refine ⟨by simp, ?_⟩
      intro r hr
      simp only [List.mem_singleton] at hr
      simp [hr]
    · exact ⟨hlen, hids⟩
  | setDelete p =>
    simp only [applyPendingOp, setPendingDelete]
    split_ifs with hp
    · rw [insertOrReplacePending_of_ids hids _ rfl]
      refine ⟨by simp, ?_⟩
      intro r hr
      simp only [List.mem_singleton] at hr
      simp [hr]
    · exact ⟨hlen, hids⟩
  | clearSpawn =>
    refine ⟨le_trans (List.length_filter_le _ _) hlen, ?_⟩
    intro r hr
    exact hids r (List.mem_of_mem_filter hr)
  | clearDelete =>
    refine ⟨le_trans (List.length_filter_le _ _) hlen, ?_⟩
    intro r hr
    exact hids r (List.mem_of_mem_filter hr)

/-- C1: the pending-operation store is a last-write-wins singleton: spawn
then delete leaves exactly the delete row with the delete payload,
`getPendingSpawn` then returns null; every interleaving of the four store
calls keeps the table at 0 or 1 rows; and the two getters return non-null
only when the stored type tag matches. -/
theorem pendingStore_singleton :
    (∀ (tbl : List PendingRow) (A : PendingSpawn) (B : PendingDelete),
        (∀ r ∈ tbl, r.id = 1) →
        pendingSpawnParseOk A = true → pendingDeleteParseOk B = true →
        setPendingDelete B (setPendingSpawn A tbl) =
          [⟨1, "delete", B.branch, B.path, none⟩]
        ∧ getPendingSpawn (setPendingDelete B (setPendingSpawn A tbl)) = none
        ∧ getPendingDelete (setPendingDelete B (setPendingSpawn A tbl)) =
            some ⟨B.branch, B.path⟩)
    ∧ (∀ (ops : List PendingOp) (tbl : List PendingRow),
        pendingWellFormed tbl → pendingWellFormed (applyPendingOps ops tbl))
    ∧ (∀ (tbl : List PendingRow) (p : PendingSpawnResult),
        getPendingSpawn tbl = some p →
        ∃ r ∈ tbl, r.id = 1 ∧ r.type = "spawn" ∧ r.branch = p.branch ∧ r.path = p.path)
    ∧ (∀ (tbl : List PendingRow) (p : PendingDelete),
        getPendingDelete tbl = some p →
        ∃ r ∈ tbl, r.id = 1 ∧ r.type = "delete" ∧ r.branch = p.branch ∧ r.path = p.path) := by
  refine ⟨?_, ?_, ?_, ?_⟩
  · intro tbl A B hids hA hB
    have e1 : setPendingSpawn A tbl = [⟨1, "spawn", A.branch, A.path, some A.sessionId⟩] := by
      rw [setPendingSpawn, if_pos hA]
      exact insertOrReplacePending_of_ids hids _ rfl
    have e2 : setPendingDelete B (setPendingSpawn A tbl) =
        [⟨1, "delete", B.branch, B.path, none⟩] := by
      rw [e1, setPendingDelete, if_pos hB]
      exact insertOrReplacePending_of_ids (by simp) _ rfl
    refine ⟨e2, ?_, ?_⟩
    · rw [e2]
      rfl
    · rw [e2]
      rfl
  · intro ops
    induction ops with
    | nil => intro tbl h; exact h
    | cons op rest ih =>
      intro tbl h
      exact ih _ (applyPendingOp_wellFormed op tbl h)
  · intro tbl p h
    simp only [getPendingSpawn, Option.map_eq_some'] at h
    obtain ⟨r, hr, hp⟩ := h
    have hmem := List.mem_of_find?_eq_some hr
    have hpred := List.find?_some hr
    simp at hpred
    exact ⟨r, hmem, hpred.1, hpred.2, by simp [← hp], by simp [← hp]⟩
  · intro tbl p h
    simp only [getPendingDelete, Option.map_eq_some'] at h
    obtain ⟨r, hr, hp⟩ := h
    have hmem := List.mem_of_find?_eq_some hr
    have hpred := List.find?_some hr
    simp at hpred
    exact ⟨r, hmem, hpred.1, hpred.2, by simp [← hp], by simp [← hp]⟩

/-- C1 witness: concrete instantiation. -/
theorem pendingStore_singleton_witness :
    setPendingDelete ⟨"b", "/q"⟩ (setPendingSpawn ⟨"a", "/p", "s"⟩ []) =
      [⟨1, "delete", "b", "/q", none⟩]
    ∧ getPendingSpawn (setPendingDelete ⟨"b", "/q"⟩ (setPendingSpawn ⟨"a", "/p", "s"⟩ [])) = none
    ∧ getPendingDelete (setPendingDelete ⟨"b", "/q"⟩ (setPendingSpawn ⟨"a", "/p", "s"⟩ [])) =
        some ⟨"b", "/q"⟩ :=
  pendingStore_singleton.1 [] ⟨"a", "/p", "s"⟩ ⟨"b", "/q"⟩ (by simp) (by decide) (by decide)

/-- The loop of `findWorkspaceRoot` returns the first inspected directory
with a `main/` subdirectory. -/
theorem findLoop_eq_find (fsIsDir : Str → Bool) :
    ∀ (fuel : Nat) (d : Str),
      findLoop fsIsDir d fuel =
        (inspectChain d fuel).find? (fun c => fsIsDir (posixJoin c (str "main"))) := by
  intro fuel
  induction fuel with
  | zero => intro d; rfl
  | succ n ih =>
    intro d
    rw [findLoop, inspectChain]
    by_cases hroot : d = str "/"
    · simp [hroot]
    · rw [if_neg hroot, if_neg hroot]
      by_cases hmain : fsIsDir (posixJoin d (str "main")) = true
      · simp [hmain]
      · simp only [Bool.not_eq_true] at hmain
        rw [if_neg (by simp [hmain]), List.find?_cons_of_neg _ (by simp [hmain])]
        exact ih _

/-- The loop inspects at most `fuel` directories. -/
theorem inspectChain_length_le (fuel : Nat) :
    ∀ d : Str, (inspectChain d fuel).length ≤ fuel := by
  induction fuel with
  | zero => intro d; simp [inspectChain]
  | succ n ih =>
    intro d
    rw [inspectChain]
    split_ifs
    · simp
    · simpa [Nat.succ_le_succ_iff] using ih (posixDirname d)

/-- C10: `findWorkspaceRoot` terminates after inspecting at most 10 ancestor
directories (stopping early at `/`): for every non-empty start path the
result is `Ok` of the nearest inspected ancestor (the resolved start
directory included) whose `main/` entry is a directory, and an error result
when no inspected ancestor has one; the empty start path yields the guard
error. -/
theorem findWorkspaceRoot_spec (fsIsDir : Str → Bool) (cwd startDir : Str)
    (hne : startDir ≠ []) :
    findWorkspaceRoot fsIsDir cwd startDir =
      (match (inspectChain (posixResolve1 cwd startDir) 10).find?
          (fun c => fsIsDir (posixJoin c (str "main"))) with
        | some d => Except.ok d
        | none =>
          Except.error (str "Workspace root not found (no main/ subdirectory within 10 levels from "
            ++ startDir ++ str ")"))
    ∧ (inspectChain (posixResolve1 cwd startDir) 10).length ≤ 10 := by
  constructor
  · rw [findWorkspaceRoot, if_neg hne, findLoop_eq_find]
  · exact inspectChain_length_le 10 _

/-- C10 witness: concrete instantiation. -/
theorem findWorkspaceRoot_spec_witness :
    (findWorkspaceRoot (fun p => p = str "/w/main") (str "/") (str "/w/main/repo1") =
      (match (inspectChain (posixResolve1 (str "/") (str "/w/main/repo1")) 10).find?
          (fun c => (fun p => p = str "/w/main") (posixJoin c (str "main"))) with
        | some d => Except.ok d
        | none =>
          Except.error (str "Workspace root not found (no main/ subdirectory within 10 levels from "
            ++ str "/w/main/repo1" ++ str ")")))
    ∧ (inspectChain (posixResolve1 (str "/") (str "/w/main/repo1")) 10).length ≤ 10 :=
  findWorkspaceRoot_spec (fun p => p = str "/w/main") (str "/") (str "/w/main/repo1")
    (by decide)

/-- Appending preserves being an absolute path. -/
theorem isAbsolutePath_append {a : Str} (b : Str) (h : isAbsolutePath a = true) :
    isAbsolutePath (a ++ b) = true := by
  cases a with
  | nil => simp [isAbsolutePath, startsWithL, str] at h
  | cons c t =>
    simp [isAbsolutePath, startsWithL, str, List.isPrefixOf] at h ⊢
    exact h

/-- Normalization preserves being an absolute path. -/
theorem isAbsolutePath_posixNormalize {s : Str} (h : isAbsolutePath s = true) :
    isAbsolutePath (posixNormalize s) = true := by
  have hne : s ≠ [] := by
    intro he
    rw [he] at h
    simp [isAbsolutePath, startsWithL, str] at h
  rw [posixNormalize, if_neg hne]
  simp only [h]
  split_ifs <;> simp [isAbsolutePath, startsWithL, str, List.isPrefixOf]

/-- `path.join` keeps a path absolute when its first argument is. -/
theorem isAbsolutePath_posixJoin {a : Str} (b : Str) (h : isAbsolutePath a = true) :
    isAbsolutePath (posixJoin a b) = true := by
  have hane : a ≠ [] := by
    intro he
    rw [he] at h
    simp [isAbsolutePath, startsWithL, str] at h
  rw [posixJoin, posixJoinList]
  by_cases hb : b = []
  · subst hb
    simp only [List.filter]
    rw [show decide (a ≠ []) = true by simp [hane]]
    simp only [List.filter_nil]
    exact isAbsolutePath_posixNormalize (by simpa [List.intercalate] using h)
  · simp only [List.filter]
    rw [show decide (a ≠ []) = true by simp [hane],
      show decide (b ≠ []) = true by simp [hb]]
    simp only [List.filter_nil]
    refine isAbsolutePath_posixNormalize ?_
    have : List.intercalate (str "/") [a, b] = a ++ str "/" ++ b := by
      simp [List.intercalate, List.intersperse]
    rw [this]
    exact isAbsolutePath_append _ (isAbsolutePath_append _ h)

/-- C8: for every entry that `symlinkDirs` links (path-safe and the source
is an existing directory), the trace removes the existing target immediately
before creating the symlink, and the symlink source is the source directory
joined with the entry — an absolute path whenever the source directory is
absolute. -/
theorem symlinkDirs_spec (w : SyncWorld) (cwd sourceDir targetDir : Str)
    (dirs : List Str) (dir : Str) (hmem : dir ∈ dirs)
    (hsafe : isPathSafe cwd dir sourceDir = true)
    (hdir : w.statDir (posixJoin sourceDir dir) = some true) :
    (∃ pre post,
      symlinkDirs w cwd sourceDir targetDir dirs =
        pre ++ [Eff.rmrf (posixJoin targetDir dir),
                Eff.symlinkEff (posixJoin sourceDir dir) (posixJoin targetDir dir)] ++ post)
    ∧ (isAbsolutePath sourceDir = true →
        isAbsolutePath (posixJoin sourceDir dir) = true) := by
  constructor
  · obtain ⟨l1, l2, hsplit⟩ := List.append_of_mem hmem
    subst hsplit
    have hentry : symlinkEntry w cwd sourceDir targetDir dir =
        [Eff.mkdirP (posixDirname (posixJoin targetDir dir)),
         Eff.rmrf (posixJoin targetDir dir),
         Eff.symlinkEff (posixJoin sourceDir dir) (posixJoin targetDir dir)] := by
      simp [symlinkEntry, hsafe, hdir]
    refine ⟨(l1.flatMap (symlinkEntry w cwd sourceDir targetDir)) ++
        [Eff.mkdirP (posixDirname (posixJoin targetDir dir))],
      l2.flatMap (symlinkEntry w cwd sourceDir targetDir), ?_⟩
    rw [symlinkDirs, List.flatMap_append, List.flatMap_cons, hentry]
    simp
  · intro habs
    exact isAbsolutePath_posixJoin dir habs

/-- C8 witness: concrete instantiation. -/
theorem symlinkDirs_spec_witness :
    (∃ pre post,
      symlinkDirs ⟨fun _ => some true⟩ (str "/c") (str "/src") (str "/tgt") [str "node_modules"] =
        pre ++ [Eff.rmrf (posixJoin (str "/tgt") (str "node_modules")),
                Eff.symlinkEff (posixJoin (str "/src") (str "node_modules"))
                  (posixJoin (str "/tgt") (str "node_modules"))] ++ post)
    ∧ (isAbsolutePath (str "/src") = true →
        isAbsolutePath (posixJoin (str "/src") (str "node_modules")) = true) :=
  symlinkDirs_spec ⟨fun _ => some true⟩ (str "/c") (str "/src") (str "/tgt")
    [str "node_modules"] (str "node_modules") (by simp) (by decide) rfl

/-- C4: when the branch fails validation, `createWorktreeSet` returns with an
empty feature path, every repo marked failed with the validation message,
`successCount = 0`, `failureCount = repos.length`, and an empty effect
trace — no directory creation, no git command, no sync, no hooks, no
terminal. -/
theorem createWorktreeSet_validation_failure (w : SetWorld)
    (workspaceRoot branch : Str) (baseBranch : Option Str) (repos : List Str)
    (runHooksFlag : Bool) (msg : String) (h : branchIssue branch = some msg) :
    createWorktreeSet w workspaceRoot branch baseBranch repos runHooksFlag =
      ({ featurePath := [],
         results := repos.map (fun repo =>
           ⟨repo, false, none, some (str "Invalid branch name: " ++ str msg)⟩),
         successCount := 0,
         failureCount := repos.length }, []) := by
  rw [createWorktreeSet, h]

/-- C4 witness: a branch containing a space is rejected with zero effects. -/
theorem createWorktreeSet_validation_failure_witness :
    createWorktreeSet ⟨[], fun _ => false, fun _ _ => .error [], fun _ => ⟨[], [], [], []⟩, true⟩
        (str "/w") (str "bad name") none [str "a", str "b"] true =
      ({ featurePath := [],
         results := [str "a", str "b"].map (fun repo =>
           ⟨repo, false, none,
            some (str "Invalid branch name: " ++ str "Branch name contains invalid characters")⟩),
         successCount := 0,
         failureCount := 2 }, []) :=
  createWorktreeSet_validation_failure _ (str "/w") (str "bad name") none
    [str "a", str "b"] true "Branch name contains invalid characters" (by decide)

/-- Every effect the per-repo loop body emits is a git command, file sync or
hook run — never a terminal launch, delete or directory creation. -/
theorem createRepoStep_filters (w : SetWorld) (workspaceRoot featurePath branch : Str)
    (baseBranch : Option Str) (runHooksFlag : Bool) (repo : Str) :
    (createRepoStep w workspaceRoot featurePath branch baseBranch runHooksFlag repo).2.2.2.filter
        isTermEff = []
    ∧ (createRepoStep w workspaceRoot featurePath branch baseBranch runHooksFlag repo).2.2.2.filter
        isRmrfEff = []
    ∧ (createRepoStep w workspaceRoot featurePath branch baseBranch runHooksFlag repo).2.2.2.filter
        isMkdirEff = [] := by
  simp only [createRepoStep]
  split <;> split_ifs <;>
    simp [isTermEff, isRmrfEff, isMkdirEff, List.filter_append]

/-- The whole per-repo loop emits no terminal launch, delete or directory
creation. -/
theorem createRepoLoop_filters (w : SetWorld) (workspaceRoot featurePath branch : Str)
    (baseBranch : Option Str) (runHooksFlag : Bool) :
    ∀ repos : List Str,
      (createRepoLoop w workspaceRoot featurePath branch baseBranch runHooksFlag repos).2.2.2.filter
          isTermEff = []
      ∧ (createRepoLoop w workspaceRoot featurePath branch baseBranch runHooksFlag repos).2.2.2.filter
          isRmrfEff = []
      ∧ (createRepoLoop w workspaceRoot featurePath branch baseBranch runHooksFlag repos).2.2.2.filter
          isMkdirEff = [] := by
  intro repos
  induction repos with
  | nil => exact ⟨rfl, rfl, rfl⟩
  | cons repo rest ih =>
    obtain ⟨s1, s2, s3⟩ :=
      createRepoStep_filters w workspaceRoot featurePath branch baseBranch runHooksFlag repo
    obtain ⟨i1, i2, i3⟩ := ih
    rw [createRepoLoop]
    rcases hstep : createRepoStep w workspaceRoot featurePath branch baseBranch runHooksFlag repo
      with ⟨r, si, fi, tr⟩
    rcases hrest : createRepoLoop w workspaceRoot featurePath branch baseBranch runHooksFlag rest
      with ⟨results, s, f, trace⟩
    rw [hstep] at s1 s2 s3
    rw [hrest] at i1 i2 i3
    simp only [List.filter_append]
    exact ⟨by rw [s1, i1]; rfl, by rw [s2, i2]; rfl, by rw [s3, i3]; rfl⟩

/-- A trace containing no directory creations and no deletes leaves the
directory-existence state unchanged. -/
theorem featureDirAfter_of_no_touch (p : Str) (st : Bool) :
    ∀ tr : List Eff, tr.filter isRmrfEff = [] → tr.filter isMkdirEff = [] →
      featureDirAfter p st tr = st := by
  intro tr
  induction tr generalizing st with
  | nil => intro _ _; rfl
  | cons e t ih =>
    intro h1 h2
    rw [List.filter_cons] at h1 h2
    have he1 : isRmrfEff e = false := by
      by_cases hb : isRmrfEff e = true
      · rw [if_pos hb] at h1
        exact absurd h1 (by simp)
      · simpa using hb
    have he2 : isMkdirEff e = false := by
      by_cases hb : isMkdirEff e = true
      · rw [if_pos hb] at h2
        exact absurd h2 (by simp)
      · simpa using hb
    have h1' : t.filter isRmrfEff = [] := by rwa [if_neg (by simp [he1])] at h1
    have h2' : t.filter isMkdirEff = [] := by rwa [if_neg (by simp [he2])] at h2
    have hstep : featureDirAfter p st (e :: t) = featureDirAfter p st t := by
      cases e with
      | mkdirP q => exact absurd he2 (by simp [isMkdirEff])
      | rmrf q => exact absurd he1 (by simp [isRmrfEff])
      | gitCmd a b => rfl
      | copyEff a b c => rfl
      | linkEff a b c => rfl
      | hooksEff a b => rfl
      | termEff a b c => rfl
      | symlinkEff a b => rfl
    rw [hstep]
    exact ih _ h1' h2'

/-- The existence state after a concatenated trace. -/
theorem featureDirAfter_append (p : Str) (st : Bool) (tr1 tr2 : List Eff) :
    featureDirAfter p st (tr1 ++ tr2) = featureDirAfter p (featureDirAfter p st tr1) tr2 := by
  simp [featureDirAfter, List.foldl_append]

/-- Creating the directory at the head of the trace makes it exist. -/
theorem featureDirAfter_cons_mkdir_self (p : Str) (st : Bool) (tr : List Eff) :
    featureDirAfter p st (Eff.mkdirP p :: tr) = featureDirAfter p true tr := by
  simp [featureDirAfter]

/-- A trace ending in `rm -rf` of the directory leaves it non-existent. -/
theorem featureDirAfter_rmrf_last (p : Str) (st : Bool) (tr : List Eff) :
    featureDirAfter p st (tr ++ [Eff.rmrf p]) = false := by
  rw [featureDirAfter_append]
  simp [featureDirAfter]

/-- A terminal launch at the end of the trace does not touch the directory. -/
theorem featureDirAfter_term_last (p : Str) (st : Bool) (tr : List Eff)
    (c m n : Str) :
    featureDirAfter p st (tr ++ [Eff.termEff c m n]) = featureDirAfter p st tr := by
  rw [featureDirAfter_append]
  simp [featureDirAfter]

set_option maxHeartbeats 3000000 in
/-- C6: once `createWorktreeSet` passes validation and the pre-existing
worktree check, either every repo fails (`successCount = 0`) and the trace
creates the feature directory, runs the loop and ends by recursively
deleting the feature directory — which therefore does not exist afterwards,
with no terminal launched — or at least one repo succeeds and exactly one
shared terminal is launched in the feature directory running the plain
`opencode` command, with no delete: the feature directory still exists. -/
theorem createWorktreeSet_outcome (w : SetWorld) (workspaceRoot branch : Str)
    (baseBranch : Option Str) (repos : List Str) (runHooksFlag : Bool)
    (hissue : branchIssue branch = none)
    (habort : w.featureEntries.any
      (fun e => w.dotGitExists
        (posixJoinList [getFeaturePath workspaceRoot branch, e, str ".git"])) = false) :
    ((createWorktreeSet w workspaceRoot branch baseBranch repos runHooksFlag).1.successCount = 0 →
      (∃ pre, (createWorktreeSet w workspaceRoot branch baseBranch repos runHooksFlag).2 =
        pre ++ [Eff.rmrf (getFeaturePath workspaceRoot branch)])
      ∧ (createWorktreeSet w workspaceRoot branch baseBranch repos runHooksFlag).2.filter
          isTermEff = []
      ∧ ∀ init : Bool,
          featureDirAfter (getFeaturePath workspaceRoot branch) init
            (createWorktreeSet w workspaceRoot branch baseBranch repos runHooksFlag).2 = false)
    ∧ (0 < (createWorktreeSet w workspaceRoot branch baseBranch repos runHooksFlag).1.successCount →
      (createWorktreeSet w workspaceRoot branch baseBranch repos runHooksFlag).2.filter
          isTermEff =
        [Eff.termEff (getFeaturePath workspaceRoot branch) (str "opencode")
          (sanitizeBranchForDir branch)]
      ∧ (createWorktreeSet w workspaceRoot branch baseBranch repos runHooksFlag).2.filter
          isRmrfEff = []
      ∧ ∀ init : Bool,
          featureDirAfter (getFeaturePath workspaceRoot branch) init
            (createWorktreeSet w workspaceRoot branch baseBranch repos runHooksFlag).2 = true) := by
  rcases hloop : createRepoLoop w workspaceRoot (getFeaturePath workspaceRoot branch) branch
      baseBranch runHooksFlag repos with ⟨results, s, f, loopTr⟩
  obtain ⟨f1, f2, f3⟩ :=
    createRepoLoop_filters w workspaceRoot (getFeaturePath workspaceRoot branch) branch
      baseBranch runHooksFlag repos
  rw [hloop] at f1 f2 f3
  simp only at f1 f2 f3
  have hcreate :
      createWorktreeSet w workspaceRoot branch baseBranch repos runHooksFlag =
        ({ featurePath := getFeaturePath workspaceRoot branch, results,
           successCount := s, failureCount := f },
         Eff.mkdirP (getFeaturePath workspaceRoot branch) ::
           (loopTr ++
             (if 0 < s then
                [Eff.termEff (getFeaturePath workspaceRoot branch) (str "opencode")
                  (sanitizeBranchForDir branch)]
              else [Eff.rmrf (getFeaturePath workspaceRoot branch)]))) := by
    simp [createWorktreeSet, hissue, habort, hloop]
  rw [hcreate]
  simp only
  constructor
  · intro hs0
    subst hs0
    rw [if_neg (by omega : ¬0 < 0)]
    refine ⟨⟨Eff.mkdirP (getFeaturePath workspaceRoot branch) :: loopTr, by simp⟩, ?_, ?_⟩
    · simp [List.filter_cons, List.filter_append, isTermEff, f1]
    · intro init
      rw [featureDirAfter_cons_mkdir_self, featureDirAfter_rmrf_last]
  · intro hspos
    rw [if_pos hspos]
    refine ⟨?_, ?_, ?_⟩
    · simp [List.filter_cons, List.filter_append, isTermEff, f1]
    · simp [List.filter_cons, List.filter_append, isRmrfEff, f2]
    · intro init
      rw [featureDirAfter_cons_mkdir_self, featureDirAfter_term_last,
        featureDirAfter_of_no_touch _ _ loopTr f2 f3]

/-- C6 witness: a one-repo world where the git commands succeed, so one
terminal is launched and the feature directory is kept. -/
theorem createWorktreeSet_outcome_witness :
    (createWorktreeSet
        ⟨[], fun _ => false, fun _ _ => .ok [], fun _ => ⟨[], [], [], []⟩, true⟩
        (str "/w") (str "feat") none [str "a"] true).2.filter isTermEff =
      [Eff.termEff (getFeaturePath (str "/w") (str "feat")) (str "opencode")
        (sanitizeBranchForDir (str "feat"))]
    ∧ (createWorktreeSet
        ⟨[], fun _ => false, fun _ _ => .ok [], fun _ => ⟨[], [], [], []⟩, true⟩
        (str "/w") (str "feat") none [str "a"] true).2.filter isRmrfEff = []
    ∧ featureDirAfter (getFeaturePath (str "/w") (str "feat")) false
        (createWorktreeSet
          ⟨[], fun _ => false, fun _ _ => .ok [], fun _ => ⟨[], [], [], []⟩, true⟩
          (str "/w") (str "feat") none [str "a"] true).2 = true :=
  let h :=
    (createWorktreeSet_outcome
      ⟨[], fun _ => false, fun _ _ => .ok [], fun _ => ⟨[], [], [], []⟩, true⟩
      (str "/w") (str "feat") none [str "a"] true (by decide) (by decide)).2 (by decide)
  ⟨h.1, h.2.1, h.2.2 false⟩

/-- One iteration of the removal loop: a worktree entry (its `.git` is a
file) contributes exactly one removal or one failure, each failure pushes
exactly one error string, and no delete or directory creation is emitted. -/
theorem removeEntryStep_spec (w : RemoveWorld) (featurePath entry : Str) :
    (removeEntryStep w featurePath entry).1 + (removeEntryStep w featurePath entry).2.1 =
      (if isWorktreeEntry w featurePath entry then 1 else 0)
    ∧ (removeEntryStep w featurePath entry).2.2.1.length =
        (removeEntryStep w featurePath entry).2.1
    ∧ (removeEntryStep w featurePath entry).2.2.2.filter isRmrfEff = []
    ∧ (removeEntryStep w featurePath entry).2.2.2.filter isMkdirEff = [] := by
  rcases hstat : w.gitFileStat (posixJoin (posixJoin featurePath entry) (str ".git"))
    with _ | isFile
  · simp [removeEntryStep, isWorktreeEntry, hstat]
  · cases isFile with
    | false => simp [removeEntryStep, isWorktreeEntry, hstat]
    | true =>
      rcases hg1 : w.gitRun
          [str "rev-parse", str "--path-format=absolute", str "--git-common-dir"]
          (posixJoin featurePath entry) with e | out
      · simp [removeEntryStep, isWorktreeEntry, hstat, hg1, isRmrfEff, isMkdirEff]
      · by_cases hcfg : (w.loadConfig (stripDotGit out)).preDelete = [] <;>
          rcases hg2 : w.gitRun
              [str "worktree", str "remove", str "--force", posixJoin featurePath entry]
              (stripDotGit out) with e2 | ok2 <;>
          simp [removeEntryStep, isWorktreeEntry, hstat, hg1, hg2, hcfg,
            isRmrfEff, isMkdirEff, List.filter_append]

/-- The whole removal loop: every entry is processed — removals plus
failures add up to the number of worktree entries — failures and error
strings correspond one to one, and the loop emits no delete or directory
creation. -/
theorem removeEntryLoop_spec (w : RemoveWorld) (featurePath : Str) :
    ∀ entries : List Str,
      (removeEntryLoop w featurePath entries).1 +
          (removeEntryLoop w featurePath entries).2.1 =
        entries.countP (fun e => isWorktreeEntry w featurePath e)
      ∧ (removeEntryLoop w featurePath entries).2.2.1.length =
          (removeEntryLoop w featurePath entries).2.1
      ∧ (removeEntryLoop w featurePath entries).2.2.2.filter isRmrfEff = []
      ∧ (removeEntryLoop w featurePath entries).2.2.2.filter isMkdirEff = [] := by
  intro entries
  induction entries with
  | nil => refine ⟨by simp [removeEntryLoop], rfl, rfl, rfl⟩
  | cons entry rest ih =>
    obtain ⟨c1, c2, c3, c4⟩ := removeEntryStep_spec w featurePath entry
    obtain ⟨i1, i2, i3, i4⟩ := ih
    rw [removeEntryLoop]
    rcases hstep : removeEntryStep w featurePath entry with ⟨r1, f1, e1, t1⟩
    rcases hrest : removeEntryLoop w featurePath rest with ⟨r, f, es, t⟩
    rw [hstep] at c1 c2 c3 c4
    rw [hrest] at i1 i2 i3 i4
    simp only at c1 c2 c3 c4 i1 i2 i3 i4
    refine ⟨?_, ?_, ?_, ?_⟩
    · simp only [List.countP_cons]
      omega
    · simp only [List.length_append]
      omega
    · simp only [List.filter_append, c3, i3]
      rfl
    · simp only [List.filter_append, c4, i4]
      rfl

/-- C5: given an existing, readable feature directory, `removeWorktreeSet`
processes every entry even when earlier entries fail — removed plus failed
counts equal the number of worktree entries, and each failure is recorded
as one error string — then unconditionally ends its trace by recursively
force-deleting the feature directory, which (when that delete does not
throw) therefore does not exist afterwards. -/
theorem removeWorktreeSet_spec (w : RemoveWorld) (workspaceRoot branch : Str)
    (entries : List Str) (hstat : w.featureStat = some true)
    (hrd : w.readdirRes = .ok entries) :
    ((removeWorktreeSet w workspaceRoot branch).1.removedCount +
        (removeWorktreeSet w workspaceRoot branch).1.failureCount =
      entries.countP (fun e => isWorktreeEntry w (getFeaturePath workspaceRoot branch) e))
    ∧ ((removeWorktreeSet w workspaceRoot branch).1.errors.length =
        (removeWorktreeSet w workspaceRoot branch).1.failureCount +
          (if w.rmErr.isSome then 1 else 0))
    ∧ (∃ pre, (removeWorktreeSet w workspaceRoot branch).2 =
        pre ++ [Eff.rmrf (getFeaturePath workspaceRoot branch)])
    ∧ (w.rmErr = none →
        ∀ init : Bool,
          featureDirAfter (getFeaturePath workspaceRoot branch) init
            (removeWorktreeSet w workspaceRoot branch).2 = false) := by
  rcases hloop : removeEntryLoop w (getFeaturePath workspaceRoot branch) entries
    with ⟨rc, fc, errs, tr⟩
  obtain ⟨l1, l2, l3, l4⟩ := removeEntryLoop_spec w (getFeaturePath workspaceRoot branch) entries
  rw [hloop] at l1 l2 l3 l4
  simp only at l1 l2 l3 l4
  have hrem : removeWorktreeSet w workspaceRoot branch =
      (⟨getFeaturePath workspaceRoot branch, rc, fc,
        errs ++ (match w.rmErr with
          | some e => [str "Failed to remove feature directory: " ++ e]
          | none => [])⟩,
       tr ++ [Eff.rmrf (getFeaturePath workspaceRoot branch)]) := by
    simp [removeWorktreeSet, hstat, hrd, hloop]
  rw [hrem]
  simp only
  refine ⟨l1, ?_, ⟨tr, rfl⟩, ?_⟩
  · cases hrm : w.rmErr with
    | none => simp [hrm, l2]
    | some e => simp [hrm, l2]
  · intro _ init
    exact featureDirAfter_rmrf_last _ _ _

/-- C5 witness: concrete instantiation with an existing empty feature
directory. -/
theorem removeWorktreeSet_spec_witness :
    ((removeWorktreeSet
        ⟨some true, .ok [], fun _ => none, fun _ _ => .error [], fun _ => ⟨[], [], [], []⟩, none⟩
        (str "/w") (str "feat")).1.removedCount +
      (removeWorktreeSet
        ⟨some true, .ok [], fun _ => none, fun _ _ => .error [], fun _ => ⟨[], [], [], []⟩, none⟩
        (str "/w") (str "feat")).1.failureCount =
      ([] : List Str).countP (fun e =>
        isWorktreeEntry
          ⟨some true, .ok [], fun _ => none, fun _ _ => .error [], fun _ => ⟨[], [], [], []⟩, none⟩
          (getFeaturePath (str "/w") (str "feat")) e))
    ∧ ((removeWorktreeSet
        ⟨some true, .ok [], fun _ => none, fun _ _ => .error [], fun _ => ⟨[], [], [], []⟩, none⟩
        (str "/w") (str "feat")).1.errors.length =
        (removeWorktreeSet
          ⟨some true, .ok [], fun _ => none, fun _ _ => .error [], fun _ => ⟨[], [], [], []⟩, none⟩
          (str "/w") (str "feat")).1.failureCount +
          (if (none : Option Str).isSome then 1 else 0))
    ∧ (∃ pre, (removeWorktreeSet
        ⟨some true, .ok [], fun _ => none, fun _ _ => .error [], fun _ => ⟨[], [], [], []⟩, none⟩
        (str "/w") (str "feat")).2 =
        pre ++ [Eff.rmrf (getFeaturePath (str "/w") (str "feat"))])
    ∧ featureDirAfter (getFeaturePath (str "/w") (str "feat")) false
        (removeWorktreeSet
          ⟨some true, .ok [], fun _ => none, fun _ _ => .error [], fun _ => ⟨[], [], [], []⟩, none⟩
          (str "/w") (str "feat")).2 = false :=
  let h :=
    removeWorktreeSet_spec
      ⟨some true, .ok [], fun _ => none, fun _ _ => .error [], fun _ => ⟨[], [], [], []⟩, none⟩
      (str "/w") (str "feat") [] rfl rfl
  ⟨h.1, h.2.1, h.2.2.1, h.2.2.2 rfl false⟩

end Worktrees
